import Mathlib

/-!
Verification of the eigenfaces pipeline (`hog/eigenfaces.py`).

Shallow embedding of the eigenface-decomposition script.  Images are modelled
as rectangular lists of rational pixel values (a 2-D numpy array is its list of
rows; a 3-D array is a list of rows of pixels, each pixel a list of channel
values).  Fallible numpy operations return `Except PyError`; the only error
the script itself raises in its core is Python's `ValueError`, carrying a
message string, and numpy's stacking/reshaping errors are likewise
`ValueError`s.

The PCA engine is sklearn's `RandomizedPCA`, which is not part of this
repository; it is modelled from the spec (see `pcaFit` below), with the
numerical decomposition backend abstracted as an input.
-/

deriving instance DecidableEq for Except

namespace Eigenfaces

/-- A Python `ValueError`/engine error.  `valueError msg` models
`ValueError(msg)`; `invalidComponentCount` models the spec's
`InvalidComponentCount` error of the PCA engine (see `pcaFit`). -/
inductive PyError where
  | valueError (msg : String)
  | invalidComponentCount (k n d : Nat)
deriving DecidableEq

/-- A loaded image, as returned by `matplotlib.image.imread`: either a 2-D
single-channel array (list of rows) or a 3-D array with a trailing channel
dimension (list of rows of pixels, each pixel its list of channels). -/
inductive NDImage where
  | arr2 (rows : List (List ℚ))
  | arr3 (rows : List (List (List ℚ)))
deriving DecidableEq

/-- The shape tuple `image.shape`, derived from the nesting structure (meaningful on
rectangular data, which is the well-formedness hypothesis of the theorems). -/
def NDImage.shape : NDImage → List Nat
  | .arr2 rows => [rows.length, (rows.headD []).length]
  | .arr3 rows => [rows.length, (rows.headD []).length, ((rows.headD []).headD []).length]

/-- Rectangularity of a 2-D array: `h` rows, each of length `w`. -/
def rowsWF (rows : List (List ℚ)) (h w : Nat) : Prop :=
  rows.length = h ∧ ∀ r ∈ rows, r.length = w

instance (rows : List (List ℚ)) (h w : Nat) : Decidable (rowsWF rows h w) := by
  unfold rowsWF; infer_instance

/-- Rectangularity of a 3-D array: `h` rows, each of `w` pixels, each pixel
with `c` channels. -/
def rows3WF (rows : List (List (List ℚ))) (h w c : Nat) : Prop :=
  rows.length = h ∧ ∀ r ∈ rows, r.length = w ∧ ∀ px ∈ r, px.length = c

instance (rows : List (List (List ℚ))) (h w c : Nat) : Decidable (rows3WF rows h w c) := by
  unfold rows3WF; infer_instance

/-- Model of `np.zeros((h, w))`. -/
def npZeros (h w : Nat) : List (List ℚ) :=
  List.replicate h (List.replicate w (0 : ℚ))

/-- Python's `str` of a shape tuple, e.g. `"(120, 100)"` (shapes in this
program always have at least two entries, so the one-element tuple's trailing
comma never arises). -/
def shapeStr (s : List Nat) : String :=
  "(" ++ String.intercalate ", " (s.map toString) ++ ")"

/-- Model of `np.vstack([a, b])` for two 2-D arrays: requires equal column counts,
concatenates the rows; otherwise numpy raises a `ValueError`. -/
def npVstack (a b : List (List ℚ)) : Except PyError (List (List ℚ)) :=
  if (a.headD []).length = (b.headD []).length then .ok (a ++ b)
  else .error (.valueError "vstack: all the input array dimensions must match")

/-- Model of `np.hstack([a, b])` for two 2-D arrays: requires equal row counts, joins
the arrays row by row; otherwise numpy raises a `ValueError`. -/
def npHstack (a b : List (List ℚ)) : Except PyError (List (List ℚ)) :=
  if a.length = b.length then .ok (List.zipWith (· ++ ·) a b)
  else .error (.valueError "hstack: all the input array dimensions must match")

/-- Model of `image[:, :, 0]` on a 3-D array: keep only the first channel of every
pixel.  (The source only reaches this with channel count ≥ 1, as produced by
`imread`; an empty pixel would be an `IndexError` in Python.) -/
def npChannel0 (rows : List (List (List ℚ))) : List (List ℚ) :=
  rows.map (fun row => row.map (fun px => px.headD 0))

/-- Model of `array.reshape(1, n)` on a 2-D array: row-major flattening, provided the
element count is exactly `n`; otherwise numpy raises a `ValueError`.  The
result is the single row of the `1 × n` output. -/
def npReshapeRow (rows : List (List ℚ)) (n : Nat) : Except PyError (List ℚ) :=
  if rows.flatten.length = n then .ok rows.flatten
  else .error (.valueError "cannot reshape array")

/-- The first-branch view of the image as a 2-D array.  Only reached when
`image.shape = (height, width)`, which a 3-D image (whose shape tuple has
three entries) can never satisfy, so the `arr3` case is unreachable. -/
def NDImage.rows2 : NDImage → List (List ℚ)
  | .arr2 rows => rows
  | .arr3 _ => []

/-- The function `_reshape(image, height, width)` of `eigenfaces.py`
(the mismatch arm below is split out as `reshapeMismatch2`):

    desired_shape = (height, width)
    if image.shape != desired_shape:
        actual_height, actual_width = image.shape[:2]
        if len(image.shape) == 3:
            image = image[:, :, 0]
        elif actual_height < height:
            padding = np.zeros((height - actual_height, width))
            image = np.vstack([image, padding])
        elif actual_width < width:
            padding = np.zeros((height, width - actual_width))
            image = np.hstack([image, padding])
        else:
            raise ValueError('unhandled resizing case: ' + str(image.shape))
    return image.reshape(1, height * width)
-/
def reshapeMismatch2 (r : List (List ℚ)) (height width : Nat) :
    Except PyError (List (List ℚ)) :=
  if r.length < height then
    npVstack r (npZeros (height - r.length) width)
  else if (r.headD []).length < width then
    npHstack r (npZeros height (width - (r.headD []).length))
  else
    .error (.valueError ("unhandled resizing case: " ++ shapeStr (NDImage.shape (.arr2 r))))

def _reshape (image : NDImage) (height width : Nat) : Except PyError (List ℚ) := do
  let rows ←
    if image.shape = [height, width] then
      pure image.rows2
    else
      match image with
      | .arr3 r => pure (npChannel0 r)
      | .arr2 r => reshapeMismatch2 r height width
  npReshapeRow rows (height * width)

/-- Does `needle` occur as a contiguous substring of the character list? -/
def containsChars (needle : List Char) : List Char → Bool
  | [] => needle.isEmpty
  | c :: cs => needle.isPrefixOf (c :: cs) || containsChars needle cs

/-- Does `needle` occur as a contiguous substring of `haystack`?  Used to
state what an error message does (not) identify. -/
def strContains (haystack needle : String) : Bool :=
  containsChars needle.toList haystack.toList

/-- Modelled from the spec: the decomposition backend of sklearn's
`RandomizedPCA`, which is not part of this repository.  The backend's output
is a list of (direction vector, captured variance) pairs — the spec leaves
the numerical method open ("exact ... or an approximate/randomized method"),
so the pairs are taken as an input of the engine rather than computed. -/
abbrev PCABackend := List (List ℚ × ℚ)

/-- The fitted decomposition object (`pca` in the source): the K ordered
direction vectors (`pca.components_`) and their explained-variance ratios
(`pca.explained_variance_ratio_`). -/
structure PCAModel where
  components : List (List ℚ)
  explained_variance_ratio : List ℚ
deriving DecidableEq

/-- Descending-variance order on backend pairs. -/
def byVariance (a b : List ℚ × ℚ) : Prop := a.2 ≥ b.2

instance : DecidableRel byVariance := fun a b => inferInstanceAs (Decidable (a.2 ≥ b.2))

instance : IsTotal (List ℚ × ℚ) byVariance := ⟨fun a b => le_total b.2 a.2⟩

instance : IsTrans (List ℚ × ℚ) byVariance := ⟨fun _ _ _ h1 h2 => le_trans h2 h1⟩

/-- Backend pairs in descending-variance order. -/
def rankPairs (backend : PCABackend) : PCABackend :=
  List.insertionSort byVariance backend

/-- Total variance across the whole spectrum. -/
def specTotal (backend : PCABackend) : ℚ :=
  (backend.map (·.2)).sum

/-- The K explained-variance ratios: the K largest variances, each as a
fraction of the total variance. -/
def pcaRatios (K : Nat) (backend : PCABackend) : List ℚ :=
  (((rankPairs backend).map (·.2)).take K).map (fun v => v / specTotal backend)

/-- Modelled from the spec: `RandomizedPCA(n_components=K).fit(matrix)` — the
PCA Engine, sklearn library code absent from this repository.  Per the spec's
contract it requires `K ≤ min(N, D)` (otherwise `InvalidComponentCount`),
returns the K direction vectors ordered by descending explained variance and
the fraction of total variance each one explains. -/
def pcaFit (matrix : List (List ℚ)) (K : Nat) (backend : PCABackend) :
    Except PyError PCAModel :=
  let N := matrix.length
  let D := (matrix.headD []).length
  if K ≤ min N D then
    .ok { components := ((rankPairs backend).map (·.1)).take K
          explained_variance_ratio := pcaRatios K backend }
  else
    .error (.invalidComponentCount K N D)

/-- Model of `vector.reshape((h, w))`: cut a length-`h*w` vector into `h` rows of `w`. -/
def chunk2 (v : List ℚ) (h w : Nat) : List (List ℚ) :=
  (List.range h).map (fun i => (v.drop (i * w)).take w)

/-- Model of `pca.components_.reshape((k, h, w))`: requires exactly `k*h*w` elements
in the stacked component matrix (else numpy raises a `ValueError`), and cuts
it into `k` matrices of shape `h × w`. -/
def npReshape3 (components : List (List ℚ)) (k h w : Nat) :
    Except PyError (List (List (List ℚ))) :=
  let flat := components.flatten
  if flat.length = k * h * w then
    .ok ((List.range k).map (fun t => chunk2 ((flat.drop (t * (h * w))).take (h * w)) h w))
  else
    .error (.valueError "cannot reshape array")

/-- Model of `np.mean(matrix, axis=0)`: column-wise means (`D = h*w` columns here). -/
def colMeans (matrix : List (List ℚ)) (D : Nat) : List ℚ :=
  (List.range D).map (fun j => (matrix.map (fun row => row.getD j 0)).sum / matrix.length)

/-- Elementwise subtraction of two equally-shaped 2-D arrays. -/
def matSub (a b : List (List ℚ)) : List (List ℚ) :=
  List.zipWith (fun ra rb => List.zipWith (· - ·) ra rb) a b

/-- Left-to-right effectful map over `Except`, the evaluation order of the
source's list comprehension (the first raising element aborts the whole
list). -/
def exceptMap (f : α → Except PyError β) : List α → Except PyError (List β)
  | [] => .ok []
  | x :: xs => do
    let y ← f x
    let ys ← exceptMap f xs
    pure (y :: ys)

/-- The function `compute_eigenfaces(image_paths, n_eigenfaces, width, height)`:

    images = (matimage.imread(path) for path in image_paths)
    image_matrix = np.vstack([_reshape(image, height, width) for image in images])
    pca = RandomizedPCA(n_components=n_eigenfaces).fit(image_matrix)
    eigenvectors = pca.components_.reshape((n_eigenfaces, height, width))
    eigenvalues = pca.explained_variance_ratio_
    mean_face = np.mean(image_matrix, axis=0).reshape((height, width))
    eigenfaces = (eigenvector - mean_face for eigenvector in eigenvectors)
    return mean_face, zip(eigenfaces, eigenvalues), pca

`inputs` pairs each path with the image `imread` yields for it (the loader is
an external collaborator); `backend` is the decomposition backend of the
spec-modelled PCA engine.  `np.vstack` of the `1 × (h*w)` row vectors is
their list. -/
def compute_eigenfaces (inputs : List (String × NDImage)) (backend : PCABackend)
    (n_eigenfaces height width : Nat) :
    Except PyError (List (List ℚ) × List (List (List ℚ) × ℚ) × PCAModel) := do
  let image_matrix ← exceptMap (fun pi => _reshape pi.2 height width) inputs
  let pca ← pcaFit image_matrix n_eigenfaces backend
  let eigenvectors ← npReshape3 pca.components n_eigenfaces height width
  let eigenvalues := pca.explained_variance_ratio
  let mean_face := chunk2 (colMeans image_matrix (height * width)) height width
  let eigenfaces := eigenvectors.map (fun ev => matSub ev mean_face)
  pure (mean_face, eigenfaces.zip eigenvalues, pca)

/-- Model of `os.path.join(dir, name)` for a relative `name`. -/
def pathJoin (dir name : String) : String := dir ++ "/" ++ name

/-- The eigenface filename `'%.4f%%.png' % (eigenvalue * 100)`.  The
fixed-point float formatting is abstracted: the name carries the exact
percentage `eigenvalue * 100` that the formatted filename encodes. -/
def percentName (eigenvalue : ℚ) : String :=
  toString (eigenvalue * 100) ++ "%.png"

/-- One file written by the pipeline: its path, and — for an eigenface
image — the variance share (in percent) its filename encodes. -/
structure WriteEvent where
  path : String
  share : Option ℚ
deriving DecidableEq

/-- The function `plot_eigenfaces(image_paths, data_out)`: runs `compute_eigenfaces`
(which, in the source, uses the configuration constants `NUM_EIGENFACES`,
`IMAGE_HEIGHT`, `IMAGE_WIDTH`; they appear here as the parameters
`n_eigenfaces`, `height`, `width`), then writes the mean face, each
eigenface in order, and the pickled model.  The result is the list of write
events in order, paired with the error the run raised, if any: every
possible error of this function occurs inside `compute_eigenfaces`, before
the first write. -/
def plot_eigenfaces (inputs : List (String × NDImage)) (backend : PCABackend)
    (data_out : String) (n_eigenfaces height width : Nat) :
    List WriteEvent × Option PyError :=
  match compute_eigenfaces inputs backend n_eigenfaces height width with
  | .error e => ([], some e)
  | .ok (_mean_face, eigenfaces, _pca) =>
    (⟨pathJoin data_out "mean-face.png", none⟩ ::
       eigenfaces.map (fun fv =>
         ⟨pathJoin data_out (percentName fv.2), some (fv.2 * 100)⟩) ++
       [⟨pathJoin data_out "pca.pickle.gz", none⟩],
     none)

/-! ## Helper lemmas about the image model -/

theorem flatten_length_uniform (rows : List (List ℚ)) (w : Nat)
    (hw : ∀ r ∈ rows, r.length = w) : rows.flatten.length = rows.length * w := by
  induction rows with
  | nil => simp
  | cons r rs ih =>
    simp only [List.flatten_cons, List.length_append, List.length_cons]
    rw [hw r (by simp), ih (fun r hr => hw r (by simp [hr]))]
    ring

theorem headD_length_uniform (rows : List (List ℚ)) (ah aw : Nat)
    (hwf : rowsWF rows ah aw) (hpos : 0 < ah) : (rows.headD []).length = aw := by
  obtain ⟨hlen, hw⟩ := hwf
  cases rows with
  | nil => simp at hlen; omega
  | cons r rs => exact hw r (by simp)

theorem shape_arr2 (rows : List (List ℚ)) (ah aw : Nat)
    (hwf : rowsWF rows ah aw) (hpos : 0 < ah) :
    NDImage.shape (.arr2 rows) = [ah, aw] := by
  simp only [NDImage.shape, headD_length_uniform rows ah aw hwf hpos, hwf.1]

/-! ## Stepping lemmas for the numpy operations -/

theorem npVstack_ok (a b : List (List ℚ))
    (h : (a.headD []).length = (b.headD []).length) : npVstack a b = .ok (a ++ b) := by
  unfold npVstack; rw [if_pos h]

theorem npVstack_err (a b : List (List ℚ))
    (h : (a.headD []).length ≠ (b.headD []).length) :
    npVstack a b = .error (.valueError "vstack: all the input array dimensions must match") := by
  unfold npVstack; rw [if_neg h]

theorem npHstack_err (a b : List (List ℚ)) (h : a.length ≠ b.length) :
    npHstack a b = .error (.valueError "hstack: all the input array dimensions must match") := by
  unfold npHstack; rw [if_neg h]

theorem npReshapeRow_ok (rows : List (List ℚ)) (n : Nat) (h : rows.flatten.length = n) :
    npReshapeRow rows n = .ok rows.flatten := by
  unfold npReshapeRow; rw [if_pos h]

theorem npZeros_headD_length (n w : Nat) (hn : 0 < n) :
    (((npZeros n w)).headD []).length = w := by
  cases n with
  | zero => omega
  | succ m => simp [npZeros, List.replicate]

theorem reshape_arr2_mismatch (rows : List (List ℚ)) (h w : Nat)
    (hne : NDImage.shape (.arr2 rows) ≠ [h, w]) :
    _reshape (.arr2 rows) h w =
      (reshapeMismatch2 rows h w) >>= fun rs => npReshapeRow rs (h * w) := by
  unfold _reshape; rw [if_neg hne]

theorem reshape_arr3 (rows : List (List (List ℚ))) (h w : Nat) :
    _reshape (.arr3 rows) h w = npReshapeRow (npChannel0 rows) (h * w) := by
  unfold _reshape
  rw [if_neg (by simp [NDImage.shape])]
  rfl

theorem reshape_arr2_match (rows : List (List ℚ)) (h w : Nat)
    (heq : NDImage.shape (.arr2 rows) = [h, w]) :
    _reshape (.arr2 rows) h w = npReshapeRow rows (h * w) := by
  unfold _reshape; rw [if_pos heq]; rfl

/-- C3: for every single-channel 2-D image whose height is Δ rows less than the
target height (its width matching the target, the only way vertical padding can
reach the target shape), the Normalizer `_reshape` returns the row-major
flattening of the image vertically padded at the bottom with Δ rows of zeros
up to the target shape. -/
theorem reshape_pads_short_image (rows : List (List ℚ)) (h w ah : Nat)
    (hwf : rowsWF rows ah w) (hpos : 0 < ah) (hlt : ah < h) :
    _reshape (.arr2 rows) h w =
      .ok ((rows ++ List.replicate (h - ah) (List.replicate w 0)).flatten) := by
  have hsh : NDImage.shape (.arr2 rows) = [ah, w] := shape_arr2 rows ah w hwf hpos
  have hne : NDImage.shape (.arr2 rows) ≠ [h, w] := by
    rw [hsh]; intro hc; simp at hc; omega
  have hhead : (rows.headD []).length = w := headD_length_uniform rows ah w hwf hpos
  have huni : ∀ r ∈ rows ++ npZeros (h - ah) w, r.length = w := by
    intro r hr
    rcases List.mem_append.mp hr with hr | hr
    · exact hwf.2 r hr
    · simp only [npZeros] at hr
      rw [List.eq_of_mem_replicate hr]; simp
  rw [reshape_arr2_mismatch rows h w hne]
  unfold reshapeMismatch2
  rw [hwf.1, if_pos hlt,
      npVstack_ok _ _ (by rw [hhead, npZeros_headD_length _ _ (by omega)])]
  show npReshapeRow _ _ = _
  rw [npReshapeRow_ok _ _ (by
    rw [flatten_length_uniform _ w huni]
    simp [npZeros, hwf.1]
    omega)]
  simp [npZeros]

theorem reshape_pads_short_image_witness :
    _reshape (.arr2 [[1, 2]]) 3 2 =
      .ok (([[1, 2]] ++ List.replicate (3 - 1) (List.replicate 2 0)).flatten) :=
  reshape_pads_short_image [[1, 2]] 3 2 1 (by decide) (by decide) (by decide)

/-- C1: a 2-D single-channel image whose shape is not reconcilable with the
target by the two padding rules (height or width strictly greater than
target, or both dimensions mismatched) makes `_reshape` raise a `ValueError`
and return no vector (no cropping). -/
theorem reshape_unreconcilable_raises (rows : List (List ℚ)) (h w ah aw : Nat)
    (hwf : rowsWF rows ah aw) (hpos : 0 < ah)
    (hne : ¬(ah = h ∧ aw = w))
    (hv : ¬(ah < h ∧ aw = w))
    (hh : ¬(ah = h ∧ aw < w)) :
    ∃ msg, _reshape (.arr2 rows) h w = .error (.valueError msg) := by
  have hsh : NDImage.shape (.arr2 rows) = [ah, aw] := shape_arr2 rows ah aw hwf hpos
  have hne' : NDImage.shape (.arr2 rows) ≠ [h, w] := by
    rw [hsh]; intro hc; simp at hc; exact hne ⟨hc.1, hc.2⟩
  have hhead : (rows.headD []).length = aw := headD_length_uniform rows ah aw hwf hpos
  rw [reshape_arr2_mismatch rows h w hne']
  unfold reshapeMismatch2
  rw [hwf.1, hhead]
  by_cases h1 : ah < h
  · have haw : aw ≠ w := fun hc => hv ⟨h1, hc⟩
    rw [if_pos h1,
        npVstack_err _ _ (by rw [hhead, npZeros_headD_length _ _ (by omega)]; exact haw)]
    exact ⟨_, rfl⟩
  · rw [if_neg h1]
    by_cases h2 : aw < w
    · have hah : ah ≠ h := fun hc => hh ⟨hc, h2⟩
      rw [if_pos h2, npHstack_err _ _ (by simp [npZeros, hwf.1]; omega)]
      exact ⟨_, rfl⟩
    · rw [if_neg h2]
      exact ⟨_, rfl⟩

theorem reshape_unreconcilable_raises_witness :
    ∃ msg, _reshape (.arr2 [[1, 2], [3, 4], [5, 6]]) 2 2 = .error (.valueError msg) :=
  reshape_unreconcilable_raises [[1, 2], [3, 4], [5, 6]] 2 2 3 2
    (by decide) (by decide) (by decide) (by decide) (by decide)

/-- C1 counterexample: on a 3×2 image with target 2×2, the raised error's
message is exactly `unhandled resizing case: (3, 2)` — it names the actual
shape but not the expected shape `(2, 2)` (and `_reshape` is never given the
image's path, so no path either), contradicting the claim that the error
identifies the offending path and the actual vs. expected shape. -/
theorem reshape_error_omits_expected_shape :
    _reshape (.arr2 [[1, 2], [3, 4], [5, 6]]) 2 2 =
      .error (.valueError "unhandled resizing case: (3, 2)") ∧
    strContains "unhandled resizing case: (3, 2)" "(2, 2)" = false := by decide

/-- C8: a 3-channel image of exactly the target height and width is reshaped
to the row-major flattening of its channel 0; the other channels are
discarded. -/
theorem reshape_takes_first_channel (rows : List (List (List ℚ))) (h w : Nat)
    (hwf : rows3WF rows h w 3) :
    _reshape (.arr3 rows) h w = .ok ((npChannel0 rows).flatten) := by
  rw [reshape_arr3]
  apply npReshapeRow_ok
  rw [flatten_length_uniform (npChannel0 rows) w ?uni]
  case uni =>
    intro r hr
    obtain ⟨row, hrow, hmap⟩ := List.mem_map.mp hr
    rw [← hmap, List.length_map]
    exact (hwf.2 row hrow).1
  simp [npChannel0, hwf.1]

theorem reshape_takes_first_channel_witness :
    _reshape (.arr3 [[[1, 9, 8], [2, 9, 8]], [[3, 9, 8], [4, 9, 8]]]) 2 2 =
      .ok ((npChannel0 [[[1, 9, 8], [2, 9, 8]], [[3, 9, 8], [4, 9, 8]]]).flatten) :=
  reshape_takes_first_channel [[[1, 9, 8], [2, 9, 8]], [[3, 9, 8], [4, 9, 8]]] 2 2 (by decide)

/-- A 2×8×3 image: 3-D, its first channel holding 16 elements, its height
and width both different from the 4×4 target. -/
def wideImage : NDImage :=
  .arr3 ((List.range 2).map (fun i => (List.range 8).map (fun j => [((i * 8 + j : Nat) : ℚ), 99, 98])))

/-- C10: a 3-D image whose first channel has exactly target-many elements but
whose height and width both differ from the target is accepted without any
error: the 3-D branch of `_reshape` extracts channel 0 and reshapes without
checking the channel's dimensions against the target. -/
theorem reshape_channel_branch_skips_dim_check :
    NDImage.shape wideImage = [2, 8, 3] ∧ [2, 8] ≠ [4, 4] ∧ 2 * 8 = 4 * 4 ∧
    _reshape wideImage 4 4 = .ok ((List.range 16).map (fun n => (n : ℚ))) := by decide

/-! ## Properties of the spec-modelled PCA engine -/

theorem rankPairs_perm (b : PCABackend) : (rankPairs b).Perm b :=
  List.perm_insertionSort _ _

theorem rankPairs_sorted (b : PCABackend) : (rankPairs b).Pairwise byVariance :=
  List.sorted_insertionSort _ _

theorem specTotal_nonneg (b : PCABackend) (hb : ∀ p ∈ b, 0 ≤ p.2) : 0 ≤ specTotal b := by
  apply List.sum_nonneg
  intro x hx
  obtain ⟨p, hp, rfl⟩ := List.mem_map.mp hx
  exact hb p hp

theorem div_mono_nonneg {a c d : ℚ} (h : c ≤ a) (hd : 0 ≤ d) : c / d ≤ a / d :=
  div_le_div_of_nonneg_right h hd

theorem sum_map_div (l : List ℚ) (t : ℚ) : (l.map (fun v => v / t)).sum = l.sum / t := by
  induction l with
  | nil => simp
  | cons x xs ih => simp [ih, add_div]

theorem pcaRatios_sorted (K : Nat) (b : PCABackend) (hb : ∀ p ∈ b, 0 ≤ p.2) :
    (pcaRatios K b).Pairwise (· ≥ ·) := by
  have ht : 0 ≤ specTotal b := specTotal_nonneg b hb
  unfold pcaRatios
  apply List.Pairwise.map
  · intro x y hxy
    exact div_mono_nonneg hxy ht
  · apply List.Pairwise.sublist (List.take_sublist _ _)
    apply List.Pairwise.map
    · intro x y hxy; exact hxy
    · exact rankPairs_sorted b

theorem mem_spectrum_take (K : Nat) (b : PCABackend) (v : ℚ)
    (hv : v ∈ ((rankPairs b).map (·.2)).take K) : v ∈ b.map (·.2) := by
  have h1 : v ∈ (rankPairs b).map (·.2) := (List.take_sublist _ _).subset hv
  exact ((rankPairs_perm b).map (·.2)).mem_iff.mp h1

theorem pcaRatios_mem (K : Nat) (b : PCABackend) (hb : ∀ p ∈ b, 0 ≤ p.2) :
    ∀ r ∈ pcaRatios K b, 0 ≤ r ∧ r ≤ 1 := by
  intro r hr
  have ht : 0 ≤ specTotal b := specTotal_nonneg b hb
  unfold pcaRatios at hr
  obtain ⟨v, hv, rfl⟩ := List.mem_map.mp hr
  have hmem : v ∈ b.map (·.2) := mem_spectrum_take K b v hv
  have hv0 : 0 ≤ v := by
    obtain ⟨p, hp, rfl⟩ := List.mem_map.mp hmem
    exact hb p hp
  have hvs : v ≤ specTotal b := by
    apply List.single_le_sum _ _ hmem
    intro x hx
    obtain ⟨p, hp, rfl⟩ := List.mem_map.mp hx
    exact hb p hp
  refine ⟨div_nonneg hv0 ht, ?_⟩
  rcases ht.eq_or_lt with h0 | h0
  · rw [← h0, div_zero]; norm_num
  · exact (div_le_one h0).mpr hvs

theorem pcaRatios_sum_le_one (K : Nat) (b : PCABackend) (hb : ∀ p ∈ b, 0 ≤ p.2) :
    (pcaRatios K b).sum ≤ 1 := by
  have ht : 0 ≤ specTotal b := specTotal_nonneg b hb
  have hsumtake : (((rankPairs b).map (·.2)).take K).sum ≤ specTotal b := by
    have hsplit := List.take_append_drop K ((rankPairs b).map (·.2))
    have htotal : ((rankPairs b).map (·.2)).sum = specTotal b :=
      ((rankPairs_perm b).map (·.2)).sum_eq
    have hdrop : 0 ≤ (((rankPairs b).map (·.2)).drop K).sum := by
      apply List.sum_nonneg
      intro x hx
      have hmem : x ∈ b.map (·.2) :=
        ((rankPairs_perm b).map (·.2)).mem_iff.mp (List.mem_of_mem_drop hx)
      obtain ⟨p, hp, rfl⟩ := List.mem_map.mp hmem
      exact hb p hp
    calc (((rankPairs b).map (·.2)).take K).sum
        ≤ (((rankPairs b).map (·.2)).take K).sum + (((rankPairs b).map (·.2)).drop K).sum := by
          linarith
      _ = ((rankPairs b).map (·.2)).sum := by rw [← List.sum_append, hsplit]
      _ = specTotal b := htotal
  unfold pcaRatios
  rw [sum_map_div]
  rcases ht.eq_or_lt with h0 | h0
  · rw [← h0, div_zero]; norm_num
  · exact (div_le_one h0).mpr hsumtake

theorem pcaRatios_length (K : Nat) (b : PCABackend) :
    (pcaRatios K b).length = min K b.length := by
  unfold pcaRatios
  simp [(rankPairs_perm b).length_eq]

theorem pcaFit_ok (m : List (List ℚ)) (K : Nat) (b : PCABackend)
    (hK : K ≤ min m.length (m.headD []).length) :
    pcaFit m K b = .ok ⟨((rankPairs b).map (·.1)).take K, pcaRatios K b⟩ := by
  unfold pcaFit
  rw [if_pos hK]

theorem except_bind_ok {α β : Type} (x : Except PyError α) (f : α → Except PyError β) (b : β) :
    x >>= f = .ok b ↔ ∃ a, x = .ok a ∧ f a = .ok b := by
  cases x with
  | error e => simp [Bind.bind, Except.bind]
  | ok a => simp [Bind.bind, Except.bind]

theorem ok_bind {α β : Type u} (a : α) (f : α → Except PyError β) :
    (Except.ok a >>= f) = f a := rfl

theorem exceptMap_nil (f : α → Except PyError β) : exceptMap f [] = .ok [] := rfl

theorem exceptMap_cons_ok (f : α → Except PyError β) (x : α) (xs : List α)
    (y : β) (ys : List β) (hx : f x = .ok y) (hxs : exceptMap f xs = .ok ys) :
    exceptMap f (x :: xs) = .ok (y :: ys) := by
  unfold exceptMap
  rw [hx, ok_bind, hxs, ok_bind]
  rfl

theorem compute_eigenfaces_eq (inputs : List (String × NDImage)) (backend : PCABackend)
    (K h w : Nat) (matrix : List (List ℚ)) (pca : PCAModel) (ev : List (List (List ℚ)))
    (hmat : exceptMap (fun pi => _reshape pi.2 h w) inputs = .ok matrix)
    (hp : pcaFit matrix K backend = .ok pca)
    (hev : npReshape3 pca.components K h w = .ok ev) :
    compute_eigenfaces inputs backend K h w =
      .ok (chunk2 (colMeans matrix (h * w)) h w,
           (ev.map (fun e => matSub e (chunk2 (colMeans matrix (h * w)) h w))).zip
             pca.explained_variance_ratio,
           pca) := by
  unfold compute_eigenfaces
  rw [hmat, ok_bind, hp, ok_bind, hev, ok_bind]
  rfl

/-- C4: the spec-modelled PCA Engine fails with `InvalidComponentCount`
exactly when the requested component count K exceeds min(N, D); it succeeds
whenever K ≤ min(N, D). -/
theorem pcaFit_component_count_check (m : List (List ℚ)) (K : Nat) (b : PCABackend) :
    pcaFit m K b = .error (.invalidComponentCount K m.length (m.headD []).length) ↔
      min m.length (m.headD []).length < K := by
  simp only [pcaFit]
  split_ifs with hK
  · constructor
    · intro hc; exact absurd hc (by simp)
    · intro hlt; omega
  · constructor
    · intro _; omega
    · intro _; rfl

theorem pcaFit_component_count_check_witness :
    pcaFit [[1]] 2 [] = .error (.invalidComponentCount 2 1 1) :=
  (pcaFit_component_count_check [[1]] 2 []).mpr (by decide)

/-- C2: the explained-variance ratios carried by the decomposition that
`compute_eigenfaces` returns are monotonically non-increasing across the
ranked components, and each lies in [0, 1].  (Variances produced by the
decomposition backend are non-negative by nature, here a hypothesis.) -/
theorem explained_variance_ratios_sorted_bounded
    (inputs : List (String × NDImage)) (backend : PCABackend) (K h w : Nat)
    (mean : List (List ℚ)) (pairs : List (List (List ℚ) × ℚ)) (pca : PCAModel)
    (hb : ∀ p ∈ backend, 0 ≤ p.2)
    (hok : compute_eigenfaces inputs backend K h w = .ok (mean, pairs, pca)) :
    pca.explained_variance_ratio.Pairwise (· ≥ ·) ∧
    ∀ r ∈ pca.explained_variance_ratio, 0 ≤ r ∧ r ≤ 1 := by
  unfold compute_eigenfaces at hok
  obtain ⟨matrix, hmat, hok⟩ := (except_bind_ok _ _ _).mp hok
  obtain ⟨p, hp, hok⟩ := (except_bind_ok _ _ _).mp hok
  obtain ⟨ev, hev, hok⟩ := (except_bind_ok _ _ _).mp hok
  have hpca : pca = p := by
    simp only [pure, Except.pure, Except.ok.injEq, Prod.mk.injEq] at hok
    exact hok.2.2.symm
  have hratio : p.explained_variance_ratio = pcaRatios K backend := by
    simp only [pcaFit] at hp
    split_ifs at hp with hK
    simp only [Except.ok.injEq] at hp
    rw [← hp]
  rw [hpca, hratio]
  exact ⟨pcaRatios_sorted K backend hb, pcaRatios_mem K backend hb⟩

theorem explained_variance_ratios_sorted_bounded_witness :
    (PCAModel.mk ((((rankPairs [([1, 0], 1)])).map (·.1)).take 1)
        (pcaRatios 1 [([1, 0], 1)])).explained_variance_ratio.Pairwise (· ≥ ·) ∧
    ∀ r ∈ (PCAModel.mk ((((rankPairs [([1, 0], 1)])).map (·.1)).take 1)
        (pcaRatios 1 [([1, 0], 1)])).explained_variance_ratio, 0 ≤ r ∧ r ≤ 1 :=
  explained_variance_ratios_sorted_bounded [("a.png", .arr2 [[1, 2]])] [([1, 0], 1)] 1 1 2
    (chunk2 (colMeans [[1, 2]] (1 * 2)) 1 2)
    (([[[1, 0]]].map (fun e => matSub e (chunk2 (colMeans [[1, 2]] (1 * 2)) 1 2))).zip
      (pcaRatios 1 [([1, 0], 1)]))
    (PCAModel.mk ((((rankPairs [([1, 0], 1)])).map (·.1)).take 1) (pcaRatios 1 [([1, 0], 1)]))
    (by decide)
    (compute_eigenfaces_eq _ _ _ _ _ _ _ _
      (exceptMap_cons_ok _ _ _ _ _ (by decide) (exceptMap_nil _))
      (pcaFit_ok _ _ _ (by decide))
      (by decide))

/-! ## The basis renderer -/

theorem flatten_drop_take_uniform (comps : List (List ℚ)) (L : Nat)
    (huni : ∀ c ∈ comps, c.length = L) (i : Nat) (hi : i < comps.length) :
    ((comps.flatten).drop (i * L)).take L = comps.getD i [] := by
  induction comps generalizing i with
  | nil => simp at hi
  | cons c cs ih =>
    have hc : c.length = L := huni c (by simp)
    cases i with
    | zero =>
      simp only [Nat.zero_mul, List.drop_zero, List.flatten_cons]
      rw [← hc, List.take_left]
      rfl
    | succ j =>
      have hstep : (j + 1) * L = c.length + j * L := by rw [hc]; ring
      simp only [List.flatten_cons, hstep]
      rw [← List.drop_drop, List.drop_left]
      exact ih (fun d hd => huni d (by simp [hd])) j (by simpa using hi)

theorem npReshape3_eq (comps : List (List ℚ)) (K h w : Nat)
    (huni : ∀ c ∈ comps, c.length = h * w) (hK : comps.length = K) :
    npReshape3 comps K h w = .ok (comps.map (fun c => chunk2 c h w)) := by
  have hlen : (comps.flatten).length = K * h * w := by
    rw [flatten_length_uniform _ _ huni, hK, mul_assoc]
  simp only [npReshape3]
  rw [if_pos hlen]
  congr 1
  apply List.ext_getElem
  · simp [hK]
  · intro i h1 h2
    have hi : i < comps.length := by simpa using h2
    simp only [List.getElem_map, List.getElem_range]
    rw [flatten_drop_take_uniform comps (h * w) huni i hi,
        List.getD_eq_getElem comps [] hi]

/-- C7: for every fitted decomposition, the renderer in `compute_eigenfaces`
produces, for each direction vector in order, the reshape of that vector to
(height, width) minus the mean image elementwise, pairing each delta with
its own explained-variance ratio in the engine's (descending) order. -/
theorem renderer_pairs_components
    (inputs : List (String × NDImage)) (backend : PCABackend) (K h w : Nat)
    (mean : List (List ℚ)) (pairs : List (List (List ℚ) × ℚ)) (pca : PCAModel)
    (hdirs : ∀ p ∈ backend, p.1.length = h * w) (hbl : K ≤ backend.length)
    (hok : compute_eigenfaces inputs backend K h w = .ok (mean, pairs, pca)) :
    pairs = (pca.components.map (fun v => matSub (chunk2 v h w) mean)).zip
        pca.explained_variance_ratio ∧
    pairs.map (·.2) = pca.explained_variance_ratio := by
  unfold compute_eigenfaces at hok
  obtain ⟨matrix, hmat, hok⟩ := (except_bind_ok _ _ _).mp hok
  obtain ⟨p, hp, hok⟩ := (except_bind_ok _ _ _).mp hok
  obtain ⟨ev, hev, hok⟩ := (except_bind_ok _ _ _).mp hok
  have hcomp : p.components = ((rankPairs backend).map (·.1)).take K ∧
      p.explained_variance_ratio = pcaRatios K backend := by
    simp only [pcaFit] at hp
    split_ifs at hp with hK
    simp only [Except.ok.injEq] at hp
    rw [← hp]
    exact ⟨rfl, rfl⟩
  have huni : ∀ c ∈ p.components, c.length = h * w := by
    intro c hc
    rw [hcomp.1] at hc
    have h1 : c ∈ (rankPairs backend).map (·.1) := (List.take_sublist _ _).subset hc
    obtain ⟨q, hq, rfl⟩ := List.mem_map.mp h1
    exact hdirs q ((rankPairs_perm backend).mem_iff.mp hq)
  have hlenc : p.components.length = K := by
    rw [hcomp.1]
    simp [(rankPairs_perm backend).length_eq]
    omega
  have hev' : ev = p.components.map (fun c => chunk2 c h w) := by
    rw [npReshape3_eq p.components K h w huni hlenc] at hev
    simpa using hev.symm
  have hout : mean = chunk2 (colMeans matrix (h * w)) h w ∧
      pairs = (ev.map (fun e => matSub e (chunk2 (colMeans matrix (h * w)) h w))).zip
        p.explained_variance_ratio ∧ pca = p := by
    simp only [pure, Except.pure, Except.ok.injEq, Prod.mk.injEq] at hok
    exact ⟨hok.1.symm, hok.2.1.symm, hok.2.2.symm⟩
  obtain ⟨hm, hpr, hpc⟩ := hout
  subst hpc
  have hratlen : pca.explained_variance_ratio.length = K := by
    rw [hcomp.2, pcaRatios_length]
    omega
  constructor
  · rw [hpr, hev', ← hm, List.map_map]
    rfl
  · rw [hpr]
    have hle : pca.explained_variance_ratio.length ≤
        (ev.map (fun e => matSub e (chunk2 (colMeans matrix (h * w)) h w))).length := by
      rw [List.length_map, hev', List.length_map, hlenc, hratlen]
    simpa using List.map_snd_zip _ _ hle

theorem renderer_pairs_components_witness :
    (([[[1, 0]]].map (fun e => matSub e (chunk2 (colMeans [[1, 2]] (1 * 2)) 1 2))).zip
        (pcaRatios 1 [([1, 0], 1)])) =
      ((PCAModel.mk (((rankPairs [([1, 0], 1)]).map (·.1)).take 1)
          (pcaRatios 1 [([1, 0], 1)])).components.map
        (fun v => matSub (chunk2 v 1 2) (chunk2 (colMeans [[1, 2]] (1 * 2)) 1 2))).zip
        (PCAModel.mk (((rankPairs [([1, 0], 1)]).map (·.1)).take 1)
          (pcaRatios 1 [([1, 0], 1)])).explained_variance_ratio ∧
    (([[[1, 0]]].map (fun e => matSub e (chunk2 (colMeans [[1, 2]] (1 * 2)) 1 2))).zip
        (pcaRatios 1 [([1, 0], 1)])).map (·.2) =
      (PCAModel.mk (((rankPairs [([1, 0], 1)]).map (·.1)).take 1)
          (pcaRatios 1 [([1, 0], 1)])).explained_variance_ratio :=
  renderer_pairs_components [("a.png", .arr2 [[1, 2]])] [([1, 0], 1)] 1 1 2
    (chunk2 (colMeans [[1, 2]] (1 * 2)) 1 2)
    (([[[1, 0]]].map (fun e => matSub e (chunk2 (colMeans [[1, 2]] (1 * 2)) 1 2))).zip
      (pcaRatios 1 [([1, 0], 1)]))
    (PCAModel.mk (((rankPairs [([1, 0], 1)]).map (·.1)).take 1) (pcaRatios 1 [([1, 0], 1)]))
    (by decide) (by decide)
    (compute_eigenfaces_eq _ _ _ _ _ _ _ _
      (exceptMap_cons_ok _ _ _ _ _ (by decide) (exceptMap_nil _))
      (pcaFit_ok _ _ _ (by decide))
      (by decide))

/-! ## Fail-fast behaviour of the pipeline -/

theorem error_bind {α β : Type u} (e : PyError) (f : α → Except PyError β) :
    (Except.error e >>= f : Except PyError β) = .error e := rfl

theorem exceptMap_err_of_mem (f : α → Except PyError β) (l : List α) (x : α) (e : PyError)
    (hx : x ∈ l) (he : f x = .error e) : ∃ e', exceptMap f l = .error e' := by
  induction l with
  | nil => simp at hx
  | cons y ys ih =>
    rcases List.mem_cons.mp hx with rfl | hmem
    · exact ⟨e, by unfold exceptMap; rw [he, error_bind]⟩
    · cases hy : f y with
      | error e2 => exact ⟨e2, by unfold exceptMap; rw [hy, error_bind]⟩
      | ok v =>
        obtain ⟨e', he'⟩ := ih hmem
        exact ⟨e', by unfold exceptMap; rw [hy, ok_bind, he', error_bind]⟩

theorem compute_eigenfaces_err_of_map (inputs : List (String × NDImage))
    (backend : PCABackend) (K h w : Nat) (e : PyError)
    (hmap : exceptMap (fun pi => _reshape pi.2 h w) inputs = .error e) :
    compute_eigenfaces inputs backend K h w = .error e := by
  unfold compute_eigenfaces
  rw [hmap, error_bind]

theorem plot_eigenfaces_err (inputs : List (String × NDImage)) (backend : PCABackend)
    (data_out : String) (K h w : Nat) (e : PyError)
    (hc : compute_eigenfaces inputs backend K h w = .error e) :
    plot_eigenfaces inputs backend data_out K h w = ([], some e) := by
  unfold plot_eigenfaces
  rw [hc]

theorem reshape_oversize_err (img : NDImage) (hsh : img.shape = [120, 100]) :
    _reshape img 100 100 = .error (.valueError "unhandled resizing case: (120, 100)") := by
  cases img with
  | arr3 rows => simp [NDImage.shape] at hsh
  | arr2 rows =>
    have hne : NDImage.shape (.arr2 rows) ≠ [100, 100] := by rw [hsh]; decide
    have hsh2 : rows.length = 120 ∧ (rows.headD []).length = 100 := by
      simpa [NDImage.shape] using hsh
    rw [reshape_arr2_mismatch _ _ _ hne]
    unfold reshapeMismatch2
    rw [if_neg (by omega), if_neg (by omega), hsh]
    rw [error_bind]
    decide

/-- C5 (amended): a run whose input list contains an image of shape 120×100
with target 100×100 fails — the corpus assembly raises before the PCA fit —
and no output files are written before the failure. -/
theorem plot_aborts_before_writes (inputs : List (String × NDImage))
    (backend : PCABackend) (data_out : String) (K : Nat) (p : String) (img : NDImage)
    (hmem : (p, img) ∈ inputs) (hsh : img.shape = [120, 100]) :
    (plot_eigenfaces inputs backend data_out K 100 100).1 = [] ∧
    ∃ e, (plot_eigenfaces inputs backend data_out K 100 100).2 = some e := by
  have he : _reshape img 100 100 =
      .error (.valueError "unhandled resizing case: (120, 100)") :=
    reshape_oversize_err img hsh
  obtain ⟨e', hmap⟩ := exceptMap_err_of_mem (fun pi => _reshape pi.2 100 100)
    inputs (p, img) _ hmem he
  have hplot := plot_eigenfaces_err inputs backend data_out K 100 100 e'
    (compute_eigenfaces_err_of_map inputs backend K 100 100 e' hmap)
  rw [hplot]
  exact ⟨rfl, e', rfl⟩

theorem plot_aborts_before_writes_witness :
    (plot_eigenfaces [("face.png", .arr2 (List.replicate 120 (List.replicate 100 0)))]
        [] "out" 50 100 100).1 = [] ∧
    ∃ e, (plot_eigenfaces [("face.png", .arr2 (List.replicate 120 (List.replicate 100 0)))]
        [] "out" 50 100 100).2 = some e :=
  plot_aborts_before_writes _ [] "out" 50 "face.png"
    (.arr2 (List.replicate 120 (List.replicate 100 0)))
    (List.mem_singleton.mpr rfl) (by decide)

set_option maxRecDepth 10000 in
/-- C5 counterexample: the failing run's error message is exactly
`unhandled resizing case: (120, 100)` — it cites the offending shape, not the
offending path (`face.png` does not occur in it), contradicting the claim
that the failure cites the image's path. -/
theorem plot_error_omits_path :
    plot_eigenfaces [("face.png", .arr2 (List.replicate 120 (List.replicate 100 0)))]
        [] "out" 50 100 100 =
      ([], some (.valueError "unhandled resizing case: (120, 100)")) ∧
    strContains "unhandled resizing case: (120, 100)" "face.png" = false := by
  decide

/-! ## The end-to-end success run -/

theorem reshape_exact (rows : List (List ℚ)) (h w : Nat)
    (hwf : rowsWF rows h w) (hh : 0 < h) :
    _reshape (.arr2 rows) h w = .ok rows.flatten := by
  rw [reshape_arr2_match _ _ _ (shape_arr2 _ _ _ hwf hh)]
  exact npReshapeRow_ok _ _ (by rw [flatten_length_uniform _ _ hwf.2, hwf.1])

theorem plot_eigenfaces_ok (inputs : List (String × NDImage)) (backend : PCABackend)
    (data_out : String) (K h w : Nat) (mean : List (List ℚ))
    (pairs : List (List (List ℚ) × ℚ)) (pca : PCAModel)
    (hc : compute_eigenfaces inputs backend K h w = .ok (mean, pairs, pca)) :
    plot_eigenfaces inputs backend data_out K h w =
      (⟨pathJoin data_out "mean-face.png", none⟩ ::
         pairs.map (fun fv => ⟨pathJoin data_out (percentName fv.2), some (fv.2 * 100)⟩) ++
         [⟨pathJoin data_out "pca.pickle.gz", none⟩],
       none) := by
  unfold plot_eigenfaces
  rw [hc]

/-- C6: a run on three target-sized images with K = 2 writes exactly one mean
image, then exactly two ranked eigenface images, then exactly one model
artifact; the two eigenface filenames' encoded variance shares are in
descending order and sum to at most 100 %. -/
theorem plot_three_images_artifacts
    (p1 p2 p3 : String) (i1 i2 i3 : List (List ℚ)) (backend : PCABackend)
    (data_out : String) (h w : Nat)
    (h1 : rowsWF i1 h w) (h2 : rowsWF i2 h w) (h3 : rowsWF i3 h w)
    (hhw : 2 ≤ h * w)
    (hb : ∀ p ∈ backend, 0 ≤ p.2) (hbl : 2 ≤ backend.length)
    (hdirs : ∀ p ∈ backend, p.1.length = h * w) :
    ∃ r1 r2 : ℚ,
      plot_eigenfaces [(p1, .arr2 i1), (p2, .arr2 i2), (p3, .arr2 i3)]
          backend data_out 2 h w =
        ([⟨pathJoin data_out "mean-face.png", none⟩,
          ⟨pathJoin data_out (percentName r1), some (r1 * 100)⟩,
          ⟨pathJoin data_out (percentName r2), some (r2 * 100)⟩,
          ⟨pathJoin data_out "pca.pickle.gz", none⟩], none) ∧
      r2 * 100 ≤ r1 * 100 ∧ r1 * 100 + r2 * 100 ≤ 100 := by
  have hh : 0 < h := Nat.pos_of_ne_zero (fun h0 => by subst h0; simp at hhw)
  have hmat : exceptMap (fun pi => _reshape pi.2 h w)
      [(p1, .arr2 i1), (p2, .arr2 i2), (p3, .arr2 i3)] =
      .ok [i1.flatten, i2.flatten, i3.flatten] := by
    exact exceptMap_cons_ok (fun pi => _reshape pi.2 h w) (p1, NDImage.arr2 i1)
      [(p2, NDImage.arr2 i2), (p3, NDImage.arr2 i3)] i1.flatten [i2.flatten, i3.flatten]
      (reshape_exact i1 h w h1 hh)
      (exceptMap_cons_ok (fun pi => _reshape pi.2 h w) (p2, NDImage.arr2 i2)
        [(p3, NDImage.arr2 i3)] i2.flatten [i3.flatten]
        (reshape_exact i2 h w h2 hh)
        (exceptMap_cons_ok (fun pi => _reshape pi.2 h w) (p3, NDImage.arr2 i3) [] i3.flatten []
          (reshape_exact i3 h w h3 hh) (exceptMap_nil _)))
  have hD : ([i1.flatten, i2.flatten, i3.flatten].headD []).length = h * w := by
    show i1.flatten.length = h * w
    rw [flatten_length_uniform _ _ h1.2, h1.1]
  have hp : pcaFit [i1.flatten, i2.flatten, i3.flatten] 2 backend =
      .ok ⟨((rankPairs backend).map (·.1)).take 2, pcaRatios 2 backend⟩ :=
    pcaFit_ok _ _ _ (by rw [hD]; simp; omega)
  have hlenc : (((rankPairs backend).map (·.1)).take 2).length = 2 := by
    simp [(rankPairs_perm backend).length_eq]
    omega
  have huni : ∀ c ∈ ((rankPairs backend).map (·.1)).take 2, c.length = h * w := by
    intro c hc
    have hm : c ∈ (rankPairs backend).map (·.1) := (List.take_sublist _ _).subset hc
    obtain ⟨q, hq, rfl⟩ := List.mem_map.mp hm
    exact hdirs q ((rankPairs_perm backend).mem_iff.mp hq)
  have hev : npReshape3 ((((rankPairs backend).map (·.1)).take 2)) 2 h w =
      .ok ((((rankPairs backend).map (·.1)).take 2).map (fun c => chunk2 c h w)) :=
    npReshape3_eq _ _ _ _ huni hlenc
  have hok := compute_eigenfaces_eq _ _ 2 h w _ _ _ hmat hp hev
  have hratlen : (pcaRatios 2 backend).length = 2 := by
    rw [pcaRatios_length]; omega
  obtain ⟨r1, r2, hr12⟩ := List.length_eq_two.mp hratlen
  obtain ⟨c1, c2, hc12⟩ := List.length_eq_two.mp hlenc
  refine ⟨r1, r2, ?_, ?_, ?_⟩
  · have hplot := plot_eigenfaces_ok _ _ data_out _ _ _ _ _ _ hok
    rw [hplot]
    rw [hc12, hr12]
    simp
  · have hsor := pcaRatios_sorted 2 backend hb
    rw [hr12] at hsor
    have : r1 ≥ r2 := by
      simpa using (List.pairwise_cons.mp hsor).1 r2 (by simp)
    have h100 : (0:ℚ) ≤ 100 := by norm_num
    exact mul_le_mul_of_nonneg_right this h100
  · have hsum := pcaRatios_sum_le_one 2 backend hb
    rw [hr12] at hsum
    simp at hsum
    linarith

theorem plot_three_images_artifacts_witness :
    ∃ r1 r2 : ℚ,
      plot_eigenfaces
          [("a.png", .arr2 [[1, 2]]), ("b.png", .arr2 [[3, 4]]), ("c.png", .arr2 [[5, 6]])]
          [([1, 0], 3), ([0, 1], 1)] "out" 2 1 2 =
        ([⟨pathJoin "out" "mean-face.png", none⟩,
          ⟨pathJoin "out" (percentName r1), some (r1 * 100)⟩,
          ⟨pathJoin "out" (percentName r2), some (r2 * 100)⟩,
          ⟨pathJoin "out" "pca.pickle.gz", none⟩], none) ∧
      r2 * 100 ≤ r1 * 100 ∧ r1 * 100 + r2 * 100 ≤ 100 :=
  plot_three_images_artifacts "a.png" "b.png" "c.png" [[1, 2]] [[3, 4]] [[5, 6]]
    [([1, 0], 3), ([0, 1], 1)] "out" 1 2
    (by decide) (by decide) (by decide) (by decide) (by decide) (by decide) (by decide)

end Eigenfaces
